import Mathlib

/-
Verification development for the way2 protocol scanner (scanner.py / scan2.py).
The Python sources are shallowly embedded: Python strings become String,
XML elements become explicit structures, dictionary lookups become
association-list lookups, and code paths that raise or call exit become
Option / Except values.
-/

deriving instance DecidableEq for Except

/-- Exact floor of the base-2 logarithm, computed with structural fuel.
Models the Python expression int(log2(v)) from scanner.py, which is exact for
the 32-bit enum entry values the program handles (v is never 0 at call sites). -/
def log2fuel : Nat → Nat → Nat
  | 0, _ => 0
  | f + 1, n => if 2 ≤ n then log2fuel f (n / 2) + 1 else 0

/-- Floor log2 with enough fuel for any input. -/
def pylog2 (n : Nat) : Nat := log2fuel n n

/-- Python str.split with a one-character separator, on character lists:
empty input gives one empty piece, a separator starts a fresh piece. -/
def pySplitC (sep : Char) : List Char → List (List Char)
  | [] => [[]]
  | c :: rest =>
    let r := pySplitC sep rest
    if c == sep then [] :: r
    else
      match r with
      | [] => [[c]]
      | w :: ws => (c :: w) :: ws

/-- Python str.split with a one-character separator, on strings. -/
def pySplitS (sep : Char) (s : String) : List String :=
  (pySplitC sep s.data).map String.mk

/-- Python sep.join(pieces). -/
def pyJoin (sep : String) : List String → String
  | [] => ""
  | [x] => x
  | x :: y :: xs => x ++ sep ++ pyJoin sep (y :: xs)

/-- Does pat occur as a contiguous substring of s (character lists)? -/
def hasSubstr : List Char → List Char → Bool
  | [], pat => pat.isEmpty
  | c :: rest, pat => pat.isPrefixOf (c :: rest) || hasSubstr rest pat

/-- Python str.removeprefix: drop pre from the front of s when it is a prefix,
otherwise return s unchanged. -/
def pyRemovePre (s pre : String) : String :=
  if pre.data.isPrefixOf s.data then String.mk (s.data.drop pre.data.length) else s

/-- One word of Python str.title: a letter is uppercased when the previous
character is not a letter (the start counts as not a letter), and lowercased
otherwise; non-letters pass through. -/
def pyTitleGo : List Char → Bool → List Char
  | [], _ => []
  | c :: cs, prevAlpha =>
    (if c.isAlpha then (if prevAlpha then c.toLower else c.toUpper) else c) ::
      pyTitleGo cs c.isAlpha

/-- Python str.title on one word. -/
def pyTitle (w : List Char) : List Char := pyTitleGo w false

/-- Character-by-character walk shared by scanner.commonPrefix and
scan2.getNamespace: consume characters of the first name while every other
name still has the same character at the current position; stop at the first
column that is exhausted or disagrees.  This returns exactly the value the
Python code returns: the divergence-point slice strs[0][:i] when some column
disagrees, and the shortest string (equal to the common slice) otherwise. -/
def cpStep : List Char → List (List Char) → List Char
  | [], _ => []
  | c :: cs, others =>
    if others.all (fun o => o.head? == some c) then
      c :: cpStep cs (others.map List.tail)
    else []

/-- scanner.py commonPrefix, value-level: empty input gives the empty string. -/
def commonPrefixOf (strs : List String) : String :=
  match strs with
  | [] => ""
  | s :: rest => String.mk (cpStep s.data (rest.map String.data))

/-- Python s.split(sep)[0] for a single-character separator: the leading run
of characters before the first underscore. -/
def firstTokenS (s : String) : String :=
  String.mk (s.data.takeWhile (fun c => c != '_'))

/-- Namespace inference as both scanner.py (commonPrefix(...).split('_')[0])
and scan2.py getNamespace compute it from a list of interface names. -/
def nsOfNames (names : List String) : String :=
  firstTokenS (commonPrefixOf names)

/-- An enum entry (name, numeric value parsed per its radix) together with
the enclosing enum definition data: name, bitfield flag, ordered entries. -/
structure EnumDef where
  name : String
  bitfield : Bool
  entries : List (String × Nat)
deriving DecidableEq, Repr

/-- An argument element: name, type attribute, optional enum reference,
optional explicit target-interface attribute. -/
structure Argument where
  name : String
  argType : String
  enumRef : Option String
  ifaceAttr : Option String
deriving DecidableEq, Repr

/-- A request or event: name and ordered arguments. -/
structure Message where
  name : String
  args : List Argument
deriving DecidableEq, Repr

/-- An interface element: name plus its ordered requests, events, enums. -/
structure Interface where
  name : String
  requests : List Message
  events : List Message
  enums : List EnumDef
deriving DecidableEq, Repr

/-- A parsed document: root tag, declared protocol name, interfaces in
declaration order. -/
structure Protocol where
  rootTag : String
  name : String
  interfaces : List Interface
deriving DecidableEq, Repr

/-- One emitted bitfield record field: anonymous padding of a given width, or
a named single-bit boolean field.  The width is an integer because the Python
code can compute a negative padding width for duplicate entry values. -/
inductive BField where
  | pad : Int → BField
  | bit : String → BField
deriving DecidableEq, Repr

/-- The bit width an emitted field contributes to the packed record. -/
def fieldWidth : BField → Int
  | BField.pad w => w
  | BField.bit _ => 1

/-- Total emitted record width. -/
def widthSum (ls : List BField) : Int := (ls.map fieldWidth).sum

/-- Stable insertion of an entry into a value-sorted list: the new entry goes
after every entry with a smaller or equal value, matching Python stable sort. -/
def insertByValue (x : String × Nat) : List (String × Nat) → List (String × Nat)
  | [] => [x]
  | y :: ys => if x.2 < y.2 then x :: y :: ys else y :: insertByValue x ys

/-- entries.sort(key = parsed value), a stable ascending sort. -/
def sortByValue (l : List (String × Nat)) : List (String × Nat) :=
  l.foldl (fun acc x => insertByValue x acc) []

/-- Is a dash-separated stem part unneeded for deduplication?  The Python
regex match('^(unstable)|(v[0-9]+)$', part) succeeds exactly when the part
starts with the literal "unstable" (first alternative, anchored at the start
by re.match) or the whole part is v followed by one or more digits (second
alternative, anchored at both ends). -/
def unneeded (part : String) : Bool :=
  ("unstable".data.isPrefixOf part.data) ||
    (match part.data with
     | 'v' :: d :: ds => (d :: ds).all Char.isDigit
     | _ => false)

/-- filtername from find_protocols: split the stem on dashes, drop unneeded
parts, and rejoin with dashes. -/
def filtername (stem : String) : String :=
  pyJoin "-" ((pySplitS '-' stem).filter (fun p => !(unneeded p)))

/-- hasStableVersion from find_protocols: the normalized unstable stem occurs
among the normalized stable stems. -/
def hasStableVersion (stable : List String) (f : String) : Bool :=
  (stable.map filtername).contains (filtername f)

/-- find_protocols (identical in scanner.py and scan2.py), modelled on the
four glob result lists (as document stems): core, stable, staging, unstable,
returned as core + stable + surviving unstable + staging. -/
def find_protocols (core stable staging unstable : List String) : List String :=
  core ++ stable ++ (unstable.filter (fun f => !(hasStableVersion stable f))) ++ staging

/-- Follows the wording of the spec for claim C5, for comparison with the
code: normalize a stem by dropping a trailing v<digits> version marker and
every literal "unstable" segment. -/
def filternameSpec (stem : String) : String :=
  let parts := pySplitS '-' stem
  let parts :=
    match parts.getLast? with
    | some last =>
      (match last.data with
       | 'v' :: d :: ds => if (d :: ds).all Char.isDigit then parts.dropLast else parts
       | _ => parts)
    | none => parts
  pyJoin "-" (parts.filter (fun p => p != "unstable"))

namespace scanner

/-- The deprecated interface name list from scanner.py. -/
def deprecated : List String := ["wl_shell", "wl_shell_surface"]

/-- The reserved-word set from scanner.py. -/
def substitutions : List String :=
  ["async", "const", "error", "export", "struct", "var", "type", "test"]

/-- The primitive type mapping dictionary from scanner.py. -/
def typesubstitutions : List (String × String) :=
  [("array", "types.Array"), ("int", "i32"), ("fixed", "f64"), ("new_id", "u32"),
   ("object", "u32"), ("string", "types.String"), ("uint", "u32")]

/-- scanner.py rename: prefix the namespace and an underscore when the name is
in the reserved set or its first character is not alphabetic.  Python indexes
name[0], which raises on an empty name; that case is modelled as none. -/
def rename (name : String) (ns : String) : Option String :=
  if name ∈ substitutions then some (ns ++ "_" ++ name)
  else if name.data = [] then none
  else if (name.data.headD 'a').isAlpha then some name
  else some (ns ++ "_" ++ name)

/-- scanner.py initCaps: split on underscores, title-case each word, join. -/
def initCaps (s : String) : String :=
  String.join ((pySplitS '_' s).map (fun w => String.mk (pyTitle w.data)))

/-- scanner.py linkEnum.  A two-part qualified reference keeps the qualifier
with the namespace prefix removed; the Python tuple unpacking raises on three
or more parts, modelled as none. -/
def linkEnum (enum : String) (ns : String) : Option String :=
  let parts := pySplitS '.' enum
  if parts.length = 1 then some (initCaps enum)
  else if parts.length = 2 then
    some (pyRemovePre (parts[0]?.getD "") (ns ++ "_") ++ "." ++ initCaps (parts[1]?.getD ""))
  else none

/-- scanner.py argument, as the ordered list of emitted (field name, field
type) pairs.  fd arguments produce no field; a uint argument with an enum
attribute produces one field typed by linkEnum; a new_id argument without an
interface attribute produces the fixed three fields; anything else produces
one field typed by the dictionary (a missing key raises, modelled as none). -/
def argument (ns : String) (a : Argument) : Option (List (String × String)) :=
  if a.argType = "fd" then some []
  else if a.argType = "uint" ∧ a.enumRef.isSome then
    (linkEnum (a.enumRef.getD "") ns).map (fun t => [(a.name, t)])
  else if a.argType = "new_id" ∧ a.ifaceAttr = none then
    some [("interface", (typesubstitutions.lookup "string").getD ""),
          ("version", (typesubstitutions.lookup "uint").getD ""),
          (a.name, (typesubstitutions.lookup a.argType).getD "")]
  else (typesubstitutions.lookup a.argType).map (fun t => [(a.name, t)])

/-- The loop body of scanner.py bitfield over the sorted entries, carrying the
floor-log2 of the previous emitted value as an integer (-1 for the initial
prev = 0.5).  Zero values and values that are not an exact power of two are
skipped; otherwise a padding field is emitted when the computed width
int(log2(value/prev)) - 1 is nonzero, then the single-bit field; after the
last entry a final padding of width 32 - int(log2(prev)) - 1 is emitted when
nonzero.  rename may fail (empty entry name), modelled as none. -/
def bitfieldGo (ns : String) : List (String × Nat) → Int → Option (List BField)
  | [], prev => some (if 31 - prev ≠ 0 then [BField.pad (31 - prev)] else [])
  | (n, v) :: rest, prev =>
    if v = 0 then bitfieldGo ns rest prev
    else if 2 ^ pylog2 v ≠ v then bitfieldGo ns rest prev
    else
      match rename n ns with
      | none => none
      | some nm =>
        (bitfieldGo ns rest (pylog2 v)).map (fun ls =>
          (if ((pylog2 v : Int) - prev - 1) ≠ 0 then
             [BField.pad ((pylog2 v : Int) - prev - 1)] else []) ++
            BField.bit nm :: ls)

/-- scanner.py bitfield: sort the entries by parsed value ascending and run
the emission loop with initial prev = 0.5 (floor log2 = -1). -/
def bitfield (ns : String) (entries : List (String × Nat)) : Option (List BField) :=
  bitfieldGo ns (sortByValue entries) (-1)

/-- scanner.py interface, reduced to its name handling: the schema name must
start with namespace + underscore (otherwise the Python code raises), and the
emitted declaration block is named by the stripped remainder.  Returns the
pair (original schema name, emitted block name). -/
def interface (ns : String) (i : Interface) : Except String (String × String) :=
  if (ns ++ "_").data.isPrefixOf i.name.data then
    Except.ok (i.name, String.mk (i.name.data.drop (ns ++ "_").data.length))
  else Except.error "interface does not start with namespace"

/-- The interface list comprehension inside scanner.py protocol: compile each
interface in order, propagating the first raised exception. -/
def compileInterfaces (ns : String) : List Interface → Except String (List (String × String))
  | [] => Except.ok []
  | i :: rest =>
    match interface ns i with
    | Except.error e => Except.error e
    | Except.ok b =>
      match compileInterfaces ns rest with
      | Except.error e => Except.error e
      | Except.ok bs => Except.ok (b :: bs)

/-- scanner.py protocol: reject a root whose tag is not protocol, infer the
namespace from all interface names, warn when it is empty, and compile the
non-deprecated interfaces.  Returns the warnings printed and either the
compiled blocks or the raised exception message. -/
def protocol (d : Protocol) : List String × Except String (List (String × String)) :=
  if d.rootTag ≠ "protocol" then ([], Except.error "root is not a protocol")
  else
    let ns := nsOfNames (d.interfaces.map (fun i => i.name))
    let warns :=
      if ns = "" then ["Warning: protocol " ++ d.name ++ " has no namespace"] else []
    (warns, compileInterfaces ns (d.interfaces.filter (fun i => !(deprecated.contains i.name))))

/-- The result of the scanner.py main loop over the parsed documents:
diagnostics printed (warnings and invalid-file errors), the per-document
output units (document name, emitted interface blocks), and the accumulated
global index entries (the schema names of the interfaces of every
successfully compiled document, deprecated ones excluded). -/
structure RunResult where
  diags : List String
  outputs : List (String × List (String × String))
  index : List String
deriving DecidableEq, Repr

/-- scanner.py main, per-document loop: a raised exception is printed as an
invalid-file error and the document is skipped; otherwise the document unit is
written and its non-deprecated interfaces join the global index. -/
def mainLoop : List Protocol → RunResult
  | [] => ⟨[], [], []⟩
  | d :: rest =>
    let r := mainLoop rest
    match protocol d with
    | (warns, Except.error e) =>
      ⟨warns ++ ("Error: Invalid wayland file - " ++ e) :: r.diags, r.outputs, r.index⟩
    | (warns, Except.ok blocks) =>
      ⟨warns ++ r.diags, (d.name, blocks) :: r.outputs,
        ((d.interfaces.filter (fun i => !(deprecated.contains i.name))).map (fun i => i.name))
          ++ r.index⟩

/-- The member list of the global index Interface enumeration: the sentinel
invalid member, then one member per collected interface. -/
def interfaceEnum (docs : List Protocol) : List String :=
  "invalid" :: (mainLoop docs).index

end scanner

namespace scan2

/-- The deprecated interface name list from scan2.py. -/
def deprecated_interfaces : List String := ["wl_shell", "wl_shell_surface"]

/-- The primitive type mapping dictionary from scan2.py. -/
def type_mapping : List (String × String) :=
  [("array", "types.Array"), ("int", "i32"), ("fixed", "f64"), ("new_id", "u32"),
   ("object", "u32"), ("string", "types.String"), ("uint", "u32")]

/-- The disallowed word set from scan2.py: keywords, builtin type names and
reserved literals of the target language. -/
def disallowed_words : List String :=
  ["addrspace", "align", "allowzero", "and", "anyframe", "anytype", "asm",
   "async", "await", "break", "callconv", "catch", "comptime", "const",
   "continue", "defer", "else", "enum", "errdefer", "error", "export",
   "extern", "fn", "for", "if", "inline", "linksection", "noalias",
   "noinline", "nosuspend", "opaque", "or", "orelse", "packed", "pub",
   "resume", "return", "struct", "suspend", "switch", "test", "threadlocal",
   "try", "union", "unreachable", "usingnamespace", "var", "volatile",
   "while", "isize", "usize", "c_char", "c_short", "c_ushort", "c_int",
   "c_uint", "c_long", "c_ulong", "c_longlong", "c_ulonglong",
   "c_longdouble", "f16", "f32", "f64", "f80", "f128", "bool", "anyopaque",
   "void", "noreturn", "type", "anyerror", "comptime_int", "comptime_float",
   "std", "types", "true", "false", "null", "undefined"]

/-- scan2.py isAllowed: a word is rejected when it is a disallowed word, when
it is i or u followed by one or more digits (the whole word), or when its
first character exists and is not an ASCII letter. -/
def isAllowed (w : String) : Bool :=
  !(disallowed_words.contains w) &&
  !(match w.data with
    | c :: d :: ds => (c == 'i' || c == 'u') && (d :: ds).all Char.isDigit
    | _ => false) &&
  !(match w.data with
    | [] => false
    | c :: _ => !c.isAlpha)

/-- scan2.py getNamespace, on the model: empty string when the document has
no interfaces, otherwise the shared namespace inference over all interface
names. -/
def getNamespace (p : Protocol) : String :=
  match p.interfaces with
  | [] => ""
  | _ => nsOfNames (p.interfaces.map (fun i => i.name))

/-- scan2.py rename as a string function: strip the namespace prefix, test
the stripped name, and re-prefix it when it is not allowed. -/
def rename (name : String) (ns : String) : String :=
  let pre := ns ++ "_"
  let cut := pyRemovePre name pre
  if isAllowed cut then cut else pre ++ cut

/-- scan2.py rename applied to an element of a document. -/
def renameEl (name : String) (p : Protocol) : String := rename name (getNamespace p)

/-- The fatal diagnostic scan2.py prints to stderr before exit(1). -/
def fatalMsg (definition : String) : String :=
  "scan2.py: fatal: Unable to find definition for " ++ definition

/-- The qualifier part definition.split('.')[-2] of a dotted reference. -/
def qualOf (parts : List String) : String := (parts[parts.length - 2]?).getD ""

/-- The target part definition.split('.')[-1] of a reference. -/
def targetOf (parts : List String) : String := parts.getLast?.getD ""

/-- scan2.py findEnumDefinition.  A qualified reference (two or more dot
parts) is resolved by scanning every loaded document in order, keeping only
trees whose root tag is protocol, for the first interface named by the
qualifier; an unqualified reference keeps the requesting interface.  The enum
is then looked up among that interface's enum definitions.  Failure at either
stage prints the fatal diagnostic and exits, modelled as Except.error. -/
def findEnumDefinition (trees : List Protocol) (definition : String)
    (iface : Interface) : Except String (Option Protocol × Interface × EnumDef) :=
  let parts := pySplitS '.' definition
  let step1 : Except String (Option Protocol × Interface) :=
    if parts.length > 1 then
      match trees.findSome? (fun t =>
          if t.rootTag == "protocol" then
            (t.interfaces.find? (fun i => i.name == qualOf parts)).map (fun i => (t, i))
          else none) with
      | some (t, i) => Except.ok (some t, i)
      | none => Except.error (fatalMsg definition)
    else Except.ok (none, iface)
  match step1 with
  | Except.error e => Except.error e
  | Except.ok (t?, i) =>
    match i.enums.find? (fun en => en.name == targetOf parts) with
    | some en => Except.ok (t?, i, en)
    | none => Except.error (fatalMsg definition)

/-- scan2.py genSingleArgument, as the ordered list of emitted (field name,
field type) pairs; the fatal exit inside findEnumDefinition propagates as an
error, and a missing dictionary key (Python KeyError) is an error as well. -/
def genSingleArgument (trees : List Protocol) (tree : Protocol)
    (iface : Interface) (a : Argument) : Except String (List (String × String)) :=
  let name := rename a.name (getNamespace tree)
  if a.argType = "fd" then Except.ok []
  else if a.argType = "uint" ∧ a.enumRef.isSome then
    match findEnumDefinition trees (a.enumRef.getD "") iface with
    | Except.error e => Except.error e
    | Except.ok (etree?, iface2, en) =>
      let etree := etree?.getD tree
      let fetch :=
        match etree? with
        | some t => "@import(" ++ t.name ++ ".zig)"
        | none => ""
      Except.ok [(name, fetch ++ "." ++ rename iface2.name (getNamespace etree) ++ "." ++
        rename en.name (getNamespace etree))]
  else if a.argType = "new_id" ∧ a.ifaceAttr = none then
    Except.ok [("interface", (type_mapping.lookup "string").getD ""),
               ("version", (type_mapping.lookup "uint").getD ""),
               (name, (type_mapping.lookup a.argType).getD "")]
  else
    match type_mapping.lookup a.argType with
    | some t => Except.ok [(name, t)]
    | none => Except.error ("KeyError: " ++ a.argType)

end scan2

namespace examples

/-- A document defining interface surface with enum error (entry bad_a). -/
def docA : Protocol := ⟨"protocol", "alpha", [⟨"surface", [], [], [⟨"error", false, [("bad_a", 0)]⟩]⟩]⟩

/-- A second document also defining interface surface with enum error. -/
def docB : Protocol := ⟨"protocol", "beta", [⟨"surface", [], [], [⟨"error", false, [("bad_b", 1)]⟩]⟩]⟩

/-- The surface interface of docB, used as the current interface. -/
def ifaceB : Interface := ⟨"surface", [], [], [⟨"error", false, [("bad_b", 1)]⟩]⟩

/-- A uint argument named myarg referencing the nonexistent nope.error. -/
def argNope : Argument := ⟨"myarg", "uint", some "nope.error", none⟩

/-- A document whose interface names diverge at the first character, so the
inferred namespace is empty. -/
def docNoNs : Protocol :=
  ⟨"protocol", "gamma", [⟨"awl_a", [], [], []⟩, ⟨"bwl_b", [], [], []⟩]⟩

/-- A document whose root element tag is not protocol. -/
def docBadRoot : Protocol := ⟨"interfaces", "delta", []⟩

/-- A document containing a live interface and both deprecated interfaces. -/
def docDepr : Protocol :=
  ⟨"protocol", "wayland",
    [⟨"wl_display", [], [], []⟩, ⟨"wl_shell", [], [], []⟩, ⟨"wl_shell_surface", [], [], []⟩]⟩

/-- A new_id argument without an explicit interface attribute. -/
def argNewId : Argument := ⟨"id", "new_id", none, none⟩

/-- An interface owning an enum named local, for unqualified resolution. -/
def ifaceLocal : Interface := ⟨"wl_thing", [], [], [⟨"local", false, [("x", 1)]⟩]⟩

end examples

theorem bitfieldGo_width (ns : String) :
    ∀ (l : List (String × Nat)) (prev : Int) (ls : List BField),
      scanner.bitfieldGo ns l prev = some ls → widthSum ls = 31 - prev := by
  intro l
  induction l with
  | nil =>
    intro prev ls h
    simp only [scanner.bitfieldGo] at h
    split at h
    · cases h
      simp only [widthSum, List.map_cons, List.map_nil, List.sum_cons, List.sum_nil, fieldWidth]
      omega
    · cases h
      simp only [widthSum, List.map_nil, List.sum_nil]
      omega
  | cons e rest ih =>
    intro prev ls h
    obtain ⟨n, v⟩ := e
    simp only [scanner.bitfieldGo] at h
    split at h
    · exact ih prev ls h
    split at h
    · exact ih prev ls h
    cases hrn : scanner.rename n ns with
    | none => rw [hrn] at h; cases h
    | some nm =>
      rw [hrn] at h
      rw [Option.map_eq_some'] at h
      obtain ⟨ls', hgo, hf⟩ := h
      have hw := ih (pylog2 v) ls' hgo
      subst hf
      split
      · simp only [widthSum, List.map_append, List.sum_append, List.map_cons, List.sum_cons,
          fieldWidth, List.map_nil, List.sum_nil] at hw ⊢
        omega
      · simp only [widthSum, List.map_append, List.sum_append, List.map_cons, List.sum_cons,
          fieldWidth, List.map_nil, List.sum_nil] at hw ⊢
        omega

/-- C1: a bitfield enum is compiled by sorting entries by parsed value
ascending, dropping the zero entry and non-power-of-two entries, emitting one
single-bit field per survivor with an anonymous padding field covering each
bit-index gap (skipped when zero) and a final padding field, so that the
total emitted width is exactly 32 bits; entries 1, 2, 4, 12 yield exactly
three boolean fields (bits 0, 1, 2) plus padding totalling 32. -/
theorem C1_bitfield_layout :
    (∀ (ns : String) (entries : List (String × Nat)) (ls : List BField),
        scanner.bitfield ns entries = some ls → widthSum ls = 32) ∧
    scanner.bitfield "wl" [("a", 1), ("b", 2), ("c", 4), ("d", 12)] =
      some [BField.bit "a", BField.bit "b", BField.bit "c", BField.pad 29] ∧
    (([BField.bit "a", BField.bit "b", BField.bit "c", BField.pad 29].filter
        (fun f => match f with | BField.bit _ => true | _ => false)).length = 3 ∧
      widthSum [BField.bit "a", BField.bit "b", BField.bit "c", BField.pad 29] = 32) := by
  refine ⟨?_, by decide, by decide⟩
  intro ns entries ls h
  simp only [scanner.bitfield] at h
  have := bitfieldGo_width ns (sortByValue entries) (-1) ls h
  omega

/-- C2 as stated is false on the code: a qualified reference is not searched
first among the interfaces of the current document — the first matching
interface across all loaded documents in load order wins, even when the
current document defines the interface and enum itself; and the fatal
diagnostic names only the unresolved reference, not the requesting argument. -/
theorem C2_resolution_cex :
    scan2.findEnumDefinition [examples.docA, examples.docB] "surface.error" examples.ifaceB =
      Except.ok (some examples.docA,
        (⟨"surface", [], [], [⟨"error", false, [("bad_a", 0)]⟩]⟩ : Interface),
        (⟨"error", false, [("bad_a", 0)]⟩ : EnumDef)) ∧
    examples.docA ≠ examples.docB ∧
    examples.ifaceB ∈ examples.docB.interfaces ∧
    (⟨"error", false, [("bad_b", 1)]⟩ : EnumDef) ∈ examples.ifaceB.enums ∧
    scan2.findEnumDefinition [examples.docA, examples.docB] "surface.error" examples.ifaceB ≠
      Except.ok (some examples.docB, examples.ifaceB,
        (⟨"error", false, [("bad_b", 1)]⟩ : EnumDef)) ∧
    scan2.genSingleArgument [examples.docA, examples.docB] examples.docB examples.ifaceB
        examples.argNope = Except.error (scan2.fatalMsg "nope.error") ∧
    hasSubstr (scan2.fatalMsg "nope.error").data "myarg".data = false := by
  decide

/-- C2 amended: an unqualified reference is looked up in the current
interface's own enum definitions only; a qualified reference is resolved
against the first matching interface across every loaded protocol-rooted
document in load order (no current-document priority); exhaustion is fatal
with a diagnostic naming exactly the unresolved reference. -/
theorem C2_resolution (trees : List Protocol) (d : String) (iface : Interface) :
    ((pySplitS '.' d).length ≤ 1 →
      ((∃ en, en ∈ iface.enums ∧ en.name = scan2.targetOf (pySplitS '.' d) ∧
          scan2.findEnumDefinition trees d iface = Except.ok (none, iface, en)) ∨
        scan2.findEnumDefinition trees d iface = Except.error (scan2.fatalMsg d))) ∧
    (∀ t? i en, scan2.findEnumDefinition trees d iface = Except.ok (t?, i, en) →
      en ∈ i.enums ∧ en.name = scan2.targetOf (pySplitS '.' d) ∧
      ((pySplitS '.' d).length > 1 →
        ∃ t, t? = some t ∧ t ∈ trees ∧ t.rootTag = "protocol" ∧ i ∈ t.interfaces ∧
          i.name = scan2.qualOf (pySplitS '.' d)) ∧
      ((pySplitS '.' d).length ≤ 1 → t? = none ∧ i = iface)) ∧
    (∀ msg, scan2.findEnumDefinition trees d iface = Except.error msg →
      msg = scan2.fatalMsg d) := by
  refine ⟨?_, ?_, ?_⟩
  · intro hle
    have hq : ¬ (pySplitS '.' d).length > 1 := by omega
    cases hfind : iface.enums.find? (fun en => en.name == scan2.targetOf (pySplitS '.' d)) with
    | some en =>
      left
      refine ⟨en, List.mem_of_find?_eq_some hfind, ?_, ?_⟩
      · simpa using List.find?_some hfind
      · simp [scan2.findEnumDefinition, if_neg hq, hfind]
    | none =>
      right
      simp [scan2.findEnumDefinition, if_neg hq, hfind]
  · intro t? i en h
    by_cases hq : (pySplitS '.' d).length > 1
    · simp only [scan2.findEnumDefinition, if_pos hq] at h
      cases hfs : trees.findSome? (fun t =>
          if t.rootTag == "protocol" then
            (t.interfaces.find? (fun i => i.name == scan2.qualOf (pySplitS '.' d))).map
              (fun i => (t, i))
          else none) with
      | none =>
        simp only [hfs] at h
        exact Except.noConfusion h
      | some ti =>
        obtain ⟨t, i0⟩ := ti
        simp only [hfs] at h
        cases hfind : i0.enums.find? (fun en => en.name == scan2.targetOf (pySplitS '.' d)) with
        | none =>
          simp only [hfind] at h
          exact Except.noConfusion h
        | some en0 =>
          simp only [hfind, Except.ok.injEq, Prod.mk.injEq] at h
          obtain ⟨h1, h2, h3⟩ := h
          subst h1; subst h2; subst h3
          obtain ⟨a, haTrees, hFa⟩ := List.exists_of_findSome?_eq_some hfs
          by_cases htag : a.rootTag == "protocol"
          · rw [if_pos htag] at hFa
            rw [Option.map_eq_some'] at hFa
            obtain ⟨i1, hfind1, heq⟩ := hFa
            injection heq with e1 e2
            subst e1
            subst e2
            refine ⟨List.mem_of_find?_eq_some hfind, ?_, ?_, ?_⟩
            · simpa using List.find?_some hfind
            · intro _
              refine ⟨a, rfl, haTrees, by simpa using htag,
                List.mem_of_find?_eq_some hfind1, ?_⟩
              simpa using List.find?_some hfind1
            · intro hle; omega
          · rw [if_neg htag] at hFa; cases hFa
    · simp only [scan2.findEnumDefinition, if_neg hq] at h
      cases hfind : iface.enums.find? (fun en => en.name == scan2.targetOf (pySplitS '.' d)) with
      | none =>
        simp only [hfind] at h
        exact Except.noConfusion h
      | some en0 =>
        simp only [hfind, Except.ok.injEq, Prod.mk.injEq] at h
        obtain ⟨h1, h2, h3⟩ := h
        subst h1; subst h2; subst h3
        exact ⟨List.mem_of_find?_eq_some hfind, by simpa using List.find?_some hfind,
          fun hgt => absurd hgt hq, fun _ => ⟨rfl, rfl⟩⟩
  · intro msg h
    by_cases hq : (pySplitS '.' d).length > 1
    · simp only [scan2.findEnumDefinition, if_pos hq] at h
      cases hfs : trees.findSome? (fun t =>
          if t.rootTag == "protocol" then
            (t.interfaces.find? (fun i => i.name == scan2.qualOf (pySplitS '.' d))).map
              (fun i => (t, i))
          else none) with
      | none =>
        simp only [hfs, Except.error.injEq] at h
        exact h.symm
      | some ti =>
        obtain ⟨t, i0⟩ := ti
        simp only [hfs] at h
        cases hfind : i0.enums.find? (fun en => en.name == scan2.targetOf (pySplitS '.' d)) with
        | none =>
          simp only [hfind, Except.error.injEq] at h
          exact h.symm
        | some en0 =>
          simp only [hfind] at h
          exact Except.noConfusion h
    · simp only [scan2.findEnumDefinition, if_neg hq] at h
      cases hfind : iface.enums.find? (fun en => en.name == scan2.targetOf (pySplitS '.' d)) with
      | none =>
        simp only [hfind, Except.error.injEq] at h
        exact h.symm
      | some en0 =>
        simp only [hfind] at h
        exact Except.noConfusion h

theorem C2_resolution_w :
    (∃ en, en ∈ examples.ifaceLocal.enums ∧ en.name = scan2.targetOf (pySplitS '.' "local") ∧
        scan2.findEnumDefinition [] "local" examples.ifaceLocal =
          Except.ok (none, examples.ifaceLocal, en)) ∨
      scan2.findEnumDefinition [] "local" examples.ifaceLocal =
        Except.error (scan2.fatalMsg "local") :=
  (C2_resolution [] "local" examples.ifaceLocal).1 (by decide)

theorem pyRemovePre_append (p r : String) : pyRemovePre (p ++ r) p = r := by
  unfold pyRemovePre
  rw [if_pos]
  · rw [String.data_append, List.drop_left]
  · rw [String.data_append]
    exact List.isPrefixOf_iff_prefix.mpr (List.prefix_append p.data r.data)

theorem pyRemovePre_of_not_pre (s p : String)
    (h : p.data.isPrefixOf s.data = false) : pyRemovePre s p = s := by
  unfold pyRemovePre
  rw [if_neg]
  simp [h]

theorem scanner_substitutions_no_underscore :
    ∀ s ∈ scanner.substitutions, ¬ ('_' ∈ s.data) := by decide

/-- C3 as stated is false on the code, at these concrete inputs: with the
empty namespace (which the program reaches, with only a warning) scanner.py
rename prefixes the reserved name error again on re-application, and scan2.py
rename strips the doubled prefix of wl_wl_display twice (some doubled-prefix
names, such as wl_wl_error, are nevertheless fixed points). -/
theorem C3_sanitize_cex :
    scanner.rename "error" "" = some "_error" ∧
    scanner.rename "_error" "" = some "__error" ∧
    ("__error" : String) ≠ "_error" ∧
    scan2.rename "wl_wl_display" "wl" = "wl_display" ∧
    scan2.rename "wl_display" "wl" = "display" ∧
    ("display" : String) ≠ "wl_display" := by decide

/-- C3 amended: scanner.py rename is idempotent whenever the namespace is
nonempty and begins with an alphabetic character (re-sanitizing an
already-prefixed name returns it unchanged because the prefixed name is
never reserved and starts with the namespace's letter); scan2.py rename is
idempotent for every name that does not begin with a doubled namespace
prefix, because it tests the stripped (pre-prefix) name against the
reserved set and the malformed-start rule. -/
theorem C3_sanitize_idem :
    (∀ (name ns y : String) (c : Char) (cs : List Char),
        ns.data = c :: cs → c.isAlpha = true →
        scanner.rename name ns = some y → scanner.rename y ns = some y) ∧
    (∀ (name ns : String),
        ((ns ++ "_") ++ (ns ++ "_")).data.isPrefixOf name.data = false →
        scan2.rename (scan2.rename name ns) ns = scan2.rename name ns) := by
  constructor
  · intro name ns y c cs hns hc h
    have hdata : (ns ++ "_" ++ name).data = c :: (cs ++ '_' :: name.data) := by
      have h1 : ("_" : String).data = ['_'] := rfl
      rw [String.data_append, String.data_append, h1, hns]
      simp
    have hnotin : (ns ++ "_" ++ name) ∉ scanner.substitutions := by
      intro hin
      exact scanner_substitutions_no_underscore _ hin (by rw [hdata]; simp)
    have key : scanner.rename (ns ++ "_" ++ name) ns = some (ns ++ "_" ++ name) := by
      unfold scanner.rename
      rw [if_neg hnotin, if_neg (by rw [hdata]; simp), if_pos]
      rw [hdata]
      simpa using hc
    by_cases hsub : name ∈ scanner.substitutions
    · unfold scanner.rename at h
      rw [if_pos hsub] at h
      have hy := Option.some.inj h
      rw [← hy]
      exact key
    · unfold scanner.rename at h
      rw [if_neg hsub] at h
      by_cases hemp : name.data = []
      · rw [if_pos hemp] at h
        exact Option.noConfusion h
      · rw [if_neg hemp] at h
        by_cases halpha : (name.data.headD 'a').isAlpha
        · rw [if_pos halpha] at h
          have hy := Option.some.inj h
          rw [← hy]
          unfold scanner.rename
          rw [if_neg hsub, if_neg hemp, if_pos halpha]
        · rw [if_neg halpha] at h
          have hy := Option.some.inj h
          rw [← hy]
          exact key
  · intro name ns hdbl
    by_cases hp : (ns ++ "_").data.isPrefixOf name.data
    · rw [List.isPrefixOf_iff_prefix] at hp
      obtain ⟨t, ht⟩ := hp
      have hr : name = (ns ++ "_") ++ String.mk t := by
        apply String.ext
        rw [String.data_append]
        exact ht.symm
      have hnd : ((ns ++ "_")).data.isPrefixOf (String.mk t).data = false := by
        by_contra hcon
        have htrue : ((ns ++ "_")).data.isPrefixOf (String.mk t).data = true := by
          cases hb : ((ns ++ "_")).data.isPrefixOf (String.mk t).data with
          | true => rfl
          | false => exact absurd hb hcon
        rw [List.isPrefixOf_iff_prefix] at htrue
        have : ((ns ++ "_") ++ (ns ++ "_")).data.isPrefixOf name.data = true := by
          rw [List.isPrefixOf_iff_prefix, hr, String.data_append, String.data_append]
          exact (List.prefix_append_right_inj (ns ++ "_").data).mpr htrue
        rw [this] at hdbl
        exact Bool.noConfusion hdbl
      rw [hr]
      by_cases hall : scan2.isAllowed (String.mk t)
      · have h1 : scan2.rename ((ns ++ "_") ++ String.mk t) ns = String.mk t := by
          simp only [scan2.rename]
          rw [pyRemovePre_append, if_pos hall]
        rw [h1]
        simp only [scan2.rename]
        rw [pyRemovePre_of_not_pre _ _ hnd, if_pos hall]
      · have h1 : scan2.rename ((ns ++ "_") ++ String.mk t) ns =
            (ns ++ "_") ++ String.mk t := by
          simp only [scan2.rename]
          rw [pyRemovePre_append, if_neg hall]
        rw [h1]
        simp only [scan2.rename]
        rw [pyRemovePre_append, if_neg hall]
    · have hp' : (ns ++ "_").data.isPrefixOf name.data = false := by
        cases hb : (ns ++ "_").data.isPrefixOf name.data with
        | true => exact absurd hb hp
        | false => rfl
      by_cases hall : scan2.isAllowed name
      · have h1 : scan2.rename name ns = name := by
          simp only [scan2.rename]
          rw [pyRemovePre_of_not_pre _ _ hp', if_pos hall]
        rw [h1, h1]
      · have h1 : scan2.rename name ns = (ns ++ "_") ++ name := by
          simp only [scan2.rename]
          rw [pyRemovePre_of_not_pre _ _ hp', if_neg hall]
        rw [h1]
        simp only [scan2.rename]
        rw [pyRemovePre_append, if_neg hall]

theorem C3_sanitize_idem_w :
    scanner.rename "wl_error" "wl" = some "wl_error" ∧
    scan2.rename (scan2.rename "wl_pointer" "wl") "wl" = scan2.rename "wl_pointer" "wl" :=
  ⟨C3_sanitize_idem.1 "error" "wl" "wl_error" 'w' ['l'] rfl (by decide) (by decide),
   C3_sanitize_idem.2 "wl_pointer" "wl" (by decide)⟩

theorem cpStep_token (t : List Char) :
    ∀ (s : List Char) (others : List (List Char)),
      '_' ∉ t →
      (s = t ∨ t ++ ['_'] <+: s) →
      (∀ o ∈ others, o = t ∨ t ++ ['_'] <+: o) →
      (cpStep s others).takeWhile (fun c => c != '_') = t := by
  induction t with
  | nil =>
    intro s others _ hs _
    rcases hs with hs | hs
    · subst hs; simp [cpStep]
    · obtain ⟨u, hu⟩ := hs
      rw [← hu]
      show (cpStep ('_' :: u) others).takeWhile (fun c => c != '_') = []
      simp only [cpStep]
      split
      · simp [List.takeWhile_cons]
      · simp
  | cons c t' ih =>
    intro s others hun hs ho
    rw [List.mem_cons] at hun
    push_neg at hun
    obtain ⟨hc, hun'⟩ := hun
    obtain ⟨s', hs', hprop⟩ :
        ∃ s', s = c :: s' ∧ (s' = t' ∨ t' ++ ['_'] <+: s') := by
      rcases hs with hs | hs
      · exact ⟨t', hs, Or.inl rfl⟩
      · obtain ⟨u, hu⟩ := hs
        refine ⟨t' ++ ['_'] ++ u, ?_, Or.inr ⟨u, by simp⟩⟩
        rw [← hu]
        simp
    subst hs'
    have hall : others.all (fun o => o.head? == some c) = true := by
      rw [List.all_eq_true]
      intro o hoMem
      rcases ho o hoMem with h | h
      · subst h; simp
      · obtain ⟨u, hu⟩ := h
        rw [← hu]
        simp
    have htails : ∀ o ∈ others.map List.tail, o = t' ∨ t' ++ ['_'] <+: o := by
      intro o' ho'
      rw [List.mem_map] at ho'
      obtain ⟨o, hoMem, rfl⟩ := ho'
      rcases ho o hoMem with h | h
      · subst h; exact Or.inl rfl
      · obtain ⟨u, hu⟩ := h
        rw [← hu]
        right
        exact ⟨u, by simp⟩
    simp only [cpStep, hall, if_true]
    rw [List.takeWhile_cons, if_pos (by simp [Ne.symm, hc] : (c != '_') = true)]
    have := ih s' (others.map List.tail) hun' hprop htails
    rw [this]

/-- C4 as stated is false on the code: when the interface names first diverge
in the middle of their leading token, the inferred namespace is the partial
common slice of that token, which does not end at an underscore boundary and
is not a complete leading underscore-delimited token of any interface name. -/
theorem C4_namespace_cex :
    nsOfNames ["wla_x", "wlb_y"] = "wl" ∧
    ¬(("wla_x" : String) = "wl" ∨ ("wl" : String).data ++ ['_'] <+: "wla_x".data) ∧
    ¬(("wlb_y" : String) = "wl" ∨ ("wl" : String).data ++ ['_'] <+: "wlb_y".data) := by
  refine ⟨by decide, ?_, ?_⟩
  · rintro (h | ⟨u, hu⟩)
    · exact absurd h (by decide)
    · have h4 : "wla_x".data = ['w', 'l', 'a', '_', 'x'] := rfl
      have h5 : ("wl" : String).data = ['w', 'l'] := rfl
      rw [h4, h5] at hu
      simp at hu
  · rintro (h | ⟨u, hu⟩)
    · exact absurd h (by decide)
    · have h4 : "wlb_y".data = ['w', 'l', 'b', '_', 'y'] := rfl
      have h5 : ("wl" : String).data = ['w', 'l'] := rfl
      rw [h4, h5] at hu
      simp at hu

/-- C4 amended: the inferred namespace is always an underscore-free common
prefix of every interface name, and it is the complete leading
underscore-delimited token whenever all interface names share that whole
leading token (each name being the token itself or the token followed by an
underscore); when the names first diverge in the middle of their leading
token the namespace is the partial common slice instead. -/
theorem C4_namespace_token :
    (∀ (names : List String) (T : String),
        names ≠ [] → '_' ∉ T.data →
        (∀ n ∈ names, n = T ∨ T.data ++ ['_'] <+: n.data) →
        nsOfNames names = T) ∧
    (∀ names : List String, '_' ∉ (nsOfNames names).data) := by
  constructor
  · intro names T hne hun hall
    cases names with
    | nil => exact absurd rfl hne
    | cons n0 rest =>
      have hs : n0.data = T.data ∨ T.data ++ ['_'] <+: n0.data := by
        rcases hall n0 (List.mem_cons_self n0 rest) with h | h
        · exact Or.inl (congrArg String.data h)
        · exact Or.inr h
      have ho : ∀ o ∈ rest.map String.data, o = T.data ∨ T.data ++ ['_'] <+: o := by
        intro o hoMem
        rw [List.mem_map] at hoMem
        obtain ⟨n, hn, rfl⟩ := hoMem
        rcases hall n (List.mem_cons_of_mem n0 hn) with h | h
        · exact Or.inl (congrArg String.data h)
        · exact Or.inr h
      have := cpStep_token T.data n0.data (rest.map String.data) hun hs ho
      apply String.ext
      exact this
  · intro names hmem
    have : ∃ l : List Char, (nsOfNames names).data = l.takeWhile (fun c => c != '_') := by
      cases names with
      | nil => exact ⟨[], rfl⟩
      | cons n0 rest => exact ⟨cpStep n0.data (rest.map String.data), rfl⟩
    obtain ⟨l, hl⟩ := this
    rw [hl] at hmem
    have := List.mem_takeWhile_imp hmem
    simp at this

theorem C4_namespace_token_w : nsOfNames ["xdg_wm_base", "xdg_popup"] = "xdg" :=
  C4_namespace_token.1 ["xdg_wm_base", "xdg_popup"] "xdg" (by decide) (by decide)
    (by
      intro n hn
      rw [List.mem_cons, List.mem_singleton] at hn
      rcases hn with h | h
      · subst h; exact Or.inr ⟨"wm_base".data, by decide⟩
      · subst h; exact Or.inr ⟨"popup".data, by decide⟩)

theorem hasStableVersion_iff (stable : List String) (f : String) :
    hasStableVersion stable f = true ↔ ∃ s ∈ stable, filtername s = filtername f := by
  unfold hasStableVersion
  rw [List.contains_iff_exists_mem_beq]
  constructor
  · rintro ⟨x, hx, hbeq⟩
    rw [List.mem_map] at hx
    obtain ⟨s, hs, rfl⟩ := hx
    exact ⟨s, hs, (eq_of_beq hbeq).symm⟩
  · rintro ⟨s, hs, heq⟩
    exact ⟨filtername s, List.mem_map_of_mem _ hs, beq_iff_eq.mpr heq.symm⟩

/-- C5 as stated is false on the code: the normalization does not only strip
a literal unstable segment and a trailing version marker — it strips every
dash-separated part that starts with the word unstable and every part that is
entirely v followed by digits, wherever it occurs.  The stem a-v1-b is
dropped against stable a-b although no stable stem matches it under the
normalization the claim describes. -/
theorem C5_discovery_cex :
    find_protocols [] ["a-b"] [] ["a-v1-b"] = ["a-b"] ∧
    ("a-v1-b" : String) ∉ find_protocols [] ["a-b"] [] ["a-v1-b"] ∧
    filternameSpec "a-v1-b" = "a-v1-b" ∧
    filternameSpec "a-b" = "a-b" ∧
    ¬ ∃ s ∈ (["a-b"] : List String), filternameSpec s = filternameSpec "a-v1-b" := by
  decide

/-- C5 amended: discovery drops an unstable document exactly when a stable
document exists whose stem matches after removing every dash-separated
segment that starts with the literal unstable or consists entirely of v
followed by digits (anywhere in the stem), both sides normalized the same
way; the output keeps the fixed order core, stable, surviving unstable,
staging, and the foo.xml / foo-unstable-v2.xml example dedupes to foo. -/
theorem C5_discovery :
    (∀ (core stable staging unstable : List String) (f : String),
        f ∈ find_protocols core stable staging unstable ↔
          f ∈ core ∨ f ∈ stable ∨
            (f ∈ unstable ∧ ¬ ∃ s ∈ stable, filtername s = filtername f) ∨
            f ∈ staging) ∧
    find_protocols ["wayland"] ["foo"] ["stag"] ["foo-unstable-v2", "bar-unstable-v1"] =
      ["wayland", "foo", "bar-unstable-v1", "stag"] := by
  constructor
  · intro core stable staging unstable f
    simp only [find_protocols, List.mem_append, List.mem_filter]
    constructor
    · rintro (((h | h) | ⟨hu, hb⟩) | h)
      · exact Or.inl h
      · exact Or.inr (Or.inl h)
      · refine Or.inr (Or.inr (Or.inl ⟨hu, fun hex => ?_⟩))
        rw [(hasStableVersion_iff stable f).mpr hex] at hb
        exact Bool.noConfusion hb
      · exact Or.inr (Or.inr (Or.inr h))
    · rintro (h | h | ⟨hu, hne⟩ | h)
      · exact Or.inl (Or.inl (Or.inl h))
      · exact Or.inl (Or.inl (Or.inr h))
      · refine Or.inl (Or.inr ⟨hu, ?_⟩)
        cases hbool : hasStableVersion stable f with
        | false => rfl
        | true => exact absurd ((hasStableVersion_iff stable f).mp hbool) hne
      · exact Or.inr h
  · decide

theorem C5_discovery_w :
    ("bar-unstable-v1" : String) ∈
      find_protocols ["wayland"] ["foo"] ["stag"] ["foo-unstable-v2", "bar-unstable-v1"] :=
  (C5_discovery.1 ["wayland"] ["foo"] ["stag"] ["foo-unstable-v2", "bar-unstable-v1"]
      "bar-unstable-v1").mpr
    (Or.inr (Or.inr (Or.inl ⟨by decide, by decide⟩)))

theorem contains_iff_mem (l : List String) (a : String) :
    l.contains a = true ↔ a ∈ l := by
  rw [List.contains_iff_exists_mem_beq]
  constructor
  · rintro ⟨x, hx, hb⟩
    rw [eq_of_beq hb]
    exact hx
  · intro h
    exact ⟨a, h, beq_self_eq_true a⟩

theorem bang_true_iff_false (b : Bool) : ((!b) = true) ↔ b = false := by
  cases b <;> simp

theorem interface_ok (ns : String) (i : Interface) (b : String × String)
    (h : scanner.interface ns i = Except.ok b) :
    b.1 = i.name ∧ (ns ++ "_").data.isPrefixOf i.name.data = true := by
  unfold scanner.interface at h
  by_cases hp : (ns ++ "_").data.isPrefixOf i.name.data = true
  · rw [if_pos hp] at h
    cases h
    exact ⟨rfl, hp⟩
  · rw [if_neg hp] at h
    exact Except.noConfusion h

theorem interface_error (ns : String) (i : Interface) (e : String)
    (h : scanner.interface ns i = Except.error e) :
    e = "interface does not start with namespace" ∧
    (ns ++ "_").data.isPrefixOf i.name.data = false := by
  unfold scanner.interface at h
  by_cases hp : (ns ++ "_").data.isPrefixOf i.name.data = true
  · rw [if_pos hp] at h
    exact Except.noConfusion h
  · rw [if_neg hp] at h
    cases h
    refine ⟨rfl, ?_⟩
    cases hb : (ns ++ "_").data.isPrefixOf i.name.data with
    | false => rfl
    | true => exact absurd hb hp

theorem compileInterfaces_ok (ns : String) :
    ∀ (l : List Interface) (blocks : List (String × String)),
      scanner.compileInterfaces ns l = Except.ok blocks →
      blocks.map Prod.fst = l.map Interface.name ∧
      ∀ i ∈ l, (ns ++ "_").data.isPrefixOf i.name.data = true := by
  intro l
  induction l with
  | nil =>
    intro blocks h
    cases h
    exact ⟨rfl, by intro i hi; cases hi⟩
  | cons i rest ih =>
    intro blocks h
    simp only [scanner.compileInterfaces] at h
    cases hif : scanner.interface ns i with
    | error e =>
      simp only [hif] at h
      exact Except.noConfusion h
    | ok b =>
      simp only [hif] at h
      cases hrest : scanner.compileInterfaces ns rest with
      | error e =>
        simp only [hrest] at h
        exact Except.noConfusion h
      | ok bs =>
        simp only [hrest] at h
        cases h
        obtain ⟨hm, hall⟩ := ih bs hrest
        obtain ⟨hb1, hpre⟩ := interface_ok ns i b hif
        constructor
        · simp only [List.map_cons, hm, hb1]
        · intro j hj
          rw [List.mem_cons] at hj
          rcases hj with hj | hj
          · subst hj; exact hpre
          · exact hall j hj

theorem compileInterfaces_error (ns : String) :
    ∀ (l : List Interface) (e : String),
      scanner.compileInterfaces ns l = Except.error e →
      e = "interface does not start with namespace" := by
  intro l
  induction l with
  | nil =>
    intro e h
    exact Except.noConfusion h
  | cons i rest ih =>
    intro e h
    simp only [scanner.compileInterfaces] at h
    cases hif : scanner.interface ns i with
    | error e0 =>
      simp only [hif] at h
      rw [← Except.error.inj h]
      exact (interface_error ns i e0 hif).1
    | ok b =>
      simp only [hif] at h
      cases hrest : scanner.compileInterfaces ns rest with
      | error e0 =>
        simp only [hrest] at h
        rw [← Except.error.inj h]
        exact ih e0 hrest
      | ok bs =>
        simp only [hrest] at h
        exact Except.noConfusion h

theorem compileInterfaces_total (ns : String) :
    ∀ l : List Interface,
      (∀ i ∈ l, (ns ++ "_").data.isPrefixOf i.name.data = true) →
      ∃ blocks, scanner.compileInterfaces ns l = Except.ok blocks := by
  intro l
  induction l with
  | nil => intro _; exact ⟨[], rfl⟩
  | cons i rest ih =>
    intro hall
    obtain ⟨bs, hbs⟩ := ih (fun j hj => hall j (List.mem_cons_of_mem i hj))
    refine ⟨(i.name, String.mk (i.name.data.drop (ns ++ "_").data.length)) :: bs, ?_⟩
    simp only [scanner.compileInterfaces, scanner.interface,
      if_pos (hall i (List.mem_cons_self i rest)), hbs]

/-- C6: a new_id argument without an explicit interface attribute expands, in
both generators, to exactly three fields in the fixed order interface-name
value, version integer, object-identifier integer. -/
theorem C6_new_id_fields (ns : String) (trees : List Protocol) (tree : Protocol)
    (iface : Interface) (a : Argument)
    (h1 : a.argType = "new_id") (h2 : a.ifaceAttr = none) :
    scanner.argument ns a =
      some [("interface", "types.String"), ("version", "u32"), (a.name, "u32")] ∧
    scan2.genSingleArgument trees tree iface a =
      Except.ok [("interface", "types.String"), ("version", "u32"),
        (scan2.rename a.name (scan2.getNamespace tree), "u32")] ∧
    (∀ l, scanner.argument ns a = some l → l.length = 3) := by
  obtain ⟨nm, tp, er, ia⟩ := a
  replace h1 : tp = "new_id" := h1
  replace h2 : ia = none := h2
  subst h1
  subst h2
  refine ⟨rfl, rfl, ?_⟩
  intro l hl
  have : [(("interface" : String), ("types.String" : String)), ("version", "u32"),
      (nm, "u32")] = l := Option.some.inj hl
  rw [← this]
  rfl

theorem C6_new_id_fields_w :
    scanner.argument "wl" examples.argNewId =
      some [("interface", "types.String"), ("version", "u32"), ("id", "u32")] :=
  (C6_new_id_fields "wl" [] examples.docA examples.ifaceB examples.argNewId rfl rfl).1

/-- C7 as stated is false on the code: with an empty inferred namespace and
at least one interface whose name does not start with an underscore, the
warning is printed and compilation of the document then FAILS, because the
prefix check still demands the separator prefix. -/
theorem C7_namespace_check_cex :
    nsOfNames (examples.docNoNs.interfaces.map (fun i => i.name)) = "" ∧
    scanner.protocol examples.docNoNs =
      (["Warning: protocol gamma has no namespace"],
        Except.error "interface does not start with namespace") := by
  decide

/-- C7 amended: in every successfully compiled document each emitted
interface block's schema name starts with the inferred namespace plus
underscore, and every non-deprecated interface is represented; an empty
namespace always produces the warning diagnostic, and compilation then fails
with the prefix error whenever some non-deprecated interface name does not
start with an underscore (it succeeds when every checked name passes, in
particular when the document has no interfaces). -/
theorem C7_namespace_check :
    (∀ (d : Protocol) (w : List String) (blocks : List (String × String)),
        scanner.protocol d = (w, Except.ok blocks) →
        (∀ b ∈ blocks,
          (nsOfNames (d.interfaces.map (fun i => i.name)) ++ "_").data.isPrefixOf
            b.1.data = true) ∧
        (∀ i ∈ d.interfaces, scanner.deprecated.contains i.name = false →
          i.name ∈ blocks.map Prod.fst)) ∧
    (∀ d : Protocol, d.rootTag = "protocol" →
        nsOfNames (d.interfaces.map (fun i => i.name)) = "" →
        ("Warning: protocol " ++ d.name ++ " has no namespace") ∈ (scanner.protocol d).1) ∧
    (∀ d : Protocol, d.rootTag = "protocol" →
        nsOfNames (d.interfaces.map (fun i => i.name)) = "" →
        (∃ i ∈ d.interfaces, scanner.deprecated.contains i.name = false ∧
            ("_" : String).data.isPrefixOf i.name.data = false) →
        (scanner.protocol d).2 = Except.error "interface does not start with namespace") ∧
    (∀ d : Protocol, d.rootTag = "protocol" →
        (∀ i ∈ d.interfaces, scanner.deprecated.contains i.name = false →
          (nsOfNames (d.interfaces.map (fun i => i.name)) ++ "_").data.isPrefixOf
            i.name.data = true) →
        ∃ blocks, (scanner.protocol d).2 = Except.ok blocks) := by
  refine ⟨?_, ?_, ?_, ?_⟩
  · intro d w blocks h
    by_cases hroot : d.rootTag ≠ "protocol"
    · simp only [scanner.protocol, if_pos hroot, Prod.mk.injEq] at h
      exact Except.noConfusion h.2
    · simp only [scanner.protocol, if_neg hroot, Prod.mk.injEq] at h
      obtain ⟨hw, hc⟩ := h
      obtain ⟨hmap, hall⟩ := compileInterfaces_ok _ _ _ hc
      constructor
      · intro b hb
        have hb1 : b.1 ∈ blocks.map Prod.fst := List.mem_map_of_mem Prod.fst hb
        rw [hmap] at hb1
        rw [List.mem_map] at hb1
        obtain ⟨i, hiF, hname⟩ := hb1
        have := hall i hiF
        rw [hname] at this
        exact this
      · intro i hi hdep
        have hiF : i ∈ d.interfaces.filter
            (fun i => !(scanner.deprecated.contains i.name)) :=
          List.mem_filter.mpr ⟨hi, (bang_true_iff_false _).mpr hdep⟩
        rw [hmap]
        exact List.mem_map_of_mem Interface.name hiF
  · intro d hroot hns
    have hroot' : ¬ d.rootTag ≠ "protocol" := by simp [hroot]
    simp only [scanner.protocol, if_neg hroot']
    rw [if_pos hns]
    simp
  · rintro d hroot hns ⟨i, hi, hdep, hbad⟩
    have hroot' : ¬ d.rootTag ≠ "protocol" := by simp [hroot]
    simp only [scanner.protocol, if_neg hroot']
    cases hres : scanner.compileInterfaces
        (nsOfNames (d.interfaces.map (fun i => i.name)))
        (d.interfaces.filter (fun i => !(scanner.deprecated.contains i.name))) with
    | error e =>
      have he := compileInterfaces_error _ _ _ hres
      rw [he]
    | ok bs =>
      exfalso
      have hiF : i ∈ d.interfaces.filter
          (fun i => !(scanner.deprecated.contains i.name)) :=
        List.mem_filter.mpr ⟨hi, (bang_true_iff_false _).mpr hdep⟩
      have := (compileInterfaces_ok _ _ _ hres).2 i hiF
      rw [hns] at this
      have he : ("" ++ "_" : String) = "_" := rfl
      rw [he] at this
      rw [this] at hbad
      exact Bool.noConfusion hbad
  · intro d hroot hall
    have hroot' : ¬ d.rootTag ≠ "protocol" := by simp [hroot]
    simp only [scanner.protocol, if_neg hroot']
    refine compileInterfaces_total _ _ ?_
    intro i hiF
    rw [List.mem_filter] at hiF
    exact hall i hiF.1 ((bang_true_iff_false _).mp hiF.2)

theorem C7_namespace_check_w :
    ("Warning: protocol " ++ "gamma" ++ " has no namespace") ∈
      (scanner.protocol examples.docNoNs).1 :=
  C7_namespace_check.2.1 examples.docNoNs rfl (by decide)

/-- C8 as stated is false on the code: a document whose root tag is not
protocol contributes nothing and the run continues, but it IS reported —
main prints an invalid-file diagnostic for it. -/
theorem C8_skip_cex :
    scanner.mainLoop [examples.docBadRoot] =
      ⟨["Error: Invalid wayland file - root is not a protocol"], [], []⟩ ∧
    (scanner.mainLoop [examples.docBadRoot]).diags ≠ [] := by decide

/-- C8 amended: a document whose root tag is not protocol is skipped — it
contributes no output unit and no index entries and the remaining documents
are processed unchanged — but a diagnostic is printed for it; the run
continues rather than aborting. -/
theorem C8_skip_reported (d : Protocol) (docs : List Protocol)
    (h : d.rootTag ≠ "protocol") :
    (scanner.mainLoop (d :: docs)).outputs = (scanner.mainLoop docs).outputs ∧
    (scanner.mainLoop (d :: docs)).index = (scanner.mainLoop docs).index ∧
    (scanner.mainLoop (d :: docs)).diags =
      "Error: Invalid wayland file - root is not a protocol" ::
        (scanner.mainLoop docs).diags := by
  have hpr : scanner.protocol d = ([], Except.error "root is not a protocol") := by
    simp only [scanner.protocol, if_pos h]
  simp [scanner.mainLoop, hpr]

theorem C8_skip_reported_w :
    (scanner.mainLoop [examples.docBadRoot]).outputs = (scanner.mainLoop []).outputs ∧
    (scanner.mainLoop [examples.docBadRoot]).index = (scanner.mainLoop []).index ∧
    (scanner.mainLoop [examples.docBadRoot]).diags =
      "Error: Invalid wayland file - root is not a protocol" ::
        (scanner.mainLoop []).diags :=
  C8_skip_reported examples.docBadRoot [] (by decide)

/-- C9: namespace inference yields wl for wl_display with wl_registry, and
xdg for the single interface xdg_surface (shortest-name leading token). -/
theorem C9_namespace_examples :
    nsOfNames ["wl_display", "wl_registry"] = "wl" ∧
    nsOfNames ["xdg_surface"] = "xdg" ∧
    scan2.getNamespace ⟨"protocol", "xdg", [⟨"xdg_surface", [], [], []⟩]⟩ = "xdg" := by
  decide

/-- C10: interfaces named wl_shell or wl_shell_surface are excluded with no
diagnostic — no declaration block in the per-document unit and no entry in
the global index enumeration — while every other interface of the same
document is still emitted. -/
theorem C10_deprecated_excluded :
    (∀ (d : Protocol) (w : List String) (blocks : List (String × String)),
        scanner.protocol d = (w, Except.ok blocks) →
        (∀ b ∈ blocks, b.1 ∉ scanner.deprecated) ∧
        (∀ i ∈ d.interfaces, i.name ∉ scanner.deprecated →
          i.name ∈ blocks.map Prod.fst)) ∧
    (∀ (docs : List Protocol) (nm : String), nm ∈ scanner.deprecated →
        nm ∉ scanner.interfaceEnum docs) ∧
    scanner.protocol examples.docDepr = ([], Except.ok [("wl_display", "display")]) := by
  refine ⟨?_, ?_, by decide⟩
  · intro d w blocks h
    by_cases hroot : d.rootTag ≠ "protocol"
    · simp only [scanner.protocol, if_pos hroot, Prod.mk.injEq] at h
      exact Except.noConfusion h.2
    · simp only [scanner.protocol, if_neg hroot, Prod.mk.injEq] at h
      obtain ⟨hw, hc⟩ := h
      obtain ⟨hmap, hall⟩ := compileInterfaces_ok _ _ _ hc
      constructor
      · intro b hb hdep
        have hb1 : b.1 ∈ blocks.map Prod.fst := List.mem_map_of_mem Prod.fst hb
        rw [hmap] at hb1
        rw [List.mem_map] at hb1
        obtain ⟨i, hiF, hname⟩ := hb1
        rw [List.mem_filter] at hiF
        have hfalse := (bang_true_iff_false _).mp hiF.2
        rw [hname] at hfalse
        rw [(contains_iff_mem _ _).mpr hdep] at hfalse
        exact Bool.noConfusion hfalse
      · intro i hi hdep
        have hcf : scanner.deprecated.contains i.name = false := by
          cases hb : scanner.deprecated.contains i.name with
          | false => rfl
          | true => exact absurd ((contains_iff_mem _ _).mp hb) hdep
        have hiF : i ∈ d.interfaces.filter
            (fun i => !(scanner.deprecated.contains i.name)) :=
          List.mem_filter.mpr ⟨hi, (bang_true_iff_false _).mpr hcf⟩
        rw [hmap]
        exact List.mem_map_of_mem Interface.name hiF
  · intro docs
    induction docs with
    | nil =>
      intro nm hdep hmem
      simp only [scanner.interfaceEnum] at hmem
      rw [List.mem_cons] at hmem
      rcases hmem with hmem | hmem
      · subst hmem
        exact absurd hdep (by decide)
      · simp [scanner.mainLoop] at hmem
    | cons d rest ih =>
      intro nm hdep hmem
      simp only [scanner.interfaceEnum] at hmem
      rw [List.mem_cons] at hmem
      rcases hmem with hmem | hmem
      · subst hmem
        exact absurd hdep (by decide)
      · have hrest : nm ∉ (scanner.mainLoop rest).index := by
          intro hr
          exact ih nm hdep (by
            simp only [scanner.interfaceEnum]
            exact List.mem_cons_of_mem _ hr)
        cases hpr : scanner.protocol d with
        | mk warns res =>
          cases res with
          | error e =>
            simp only [scanner.mainLoop, hpr] at hmem
            exact hrest hmem
          | ok blocks =>
            simp only [scanner.mainLoop, hpr] at hmem
            rw [List.mem_append] at hmem
            rcases hmem with hmem | hmem
            · rw [List.mem_map] at hmem
              obtain ⟨i, hiF, hname⟩ := hmem
              rw [List.mem_filter] at hiF
              have hfalse := (bang_true_iff_false _).mp hiF.2
              rw [hname] at hfalse
              rw [(contains_iff_mem _ _).mpr hdep] at hfalse
              exact Bool.noConfusion hfalse
            · exact hrest hmem

theorem C10_deprecated_excluded_w :
    ("wl_display" : String) ∈ [("wl_display", "display")].map
      (Prod.fst (α := String) (β := String)) :=
  (C10_deprecated_excluded.1 examples.docDepr [] [("wl_display", "display")]
      C10_deprecated_excluded.2.2).2
    ⟨"wl_display", [], [], []⟩ (by decide) (by decide)

theorem C1_bitfield_layout_w :
    widthSum [BField.bit "a", BField.bit "b", BField.bit "c", BField.pad 29] = 32 :=
  C1_bitfield_layout.1 "wl" [("a", 1), ("b", 2), ("c", 4), ("d", 12)]
    [BField.bit "a", BField.bit "b", BField.bit "c", BField.pad 29]
    C1_bitfield_layout.2.1
